import Mathlib

/-! rss-issues-action: the feed-to-issue pipeline of `main.go`

A shallow embedding of `func main` of `src/main.go` and theorems about it.

* Go strings are byte sequences (`len` and slicing count bytes), so a string is a
  list of byte values.
* Calls into libraries (regexp, strconv, time, html-to-markdown, the GitHub client)
  are fields of `Lib` (pure functions) and `World` (clock and tracker); the
  theorems hold for every implementation of them.  `goLib` and `goWorld` are one
  concrete implementation, used to evaluate the pipeline on concrete inputs.
* The one runtime failure of the loop, a slice bound out of range at
  `markdown[:cl]`, is the value `Flow.panic`; it aborts the run.
-/

namespace RssIssues

/-! ## Strings -/

/-- A Go string: an immutable sequence of bytes. -/
abbrev GoString := List Nat

/-- UTF-8 encoding of one code point, the way a Go string literal is stored. -/
def utf8 (c : Char) : List Nat :=
  let n := c.toNat
  if n < 0x80 then [n]
  else if n < 0x800 then [0xC0 + n / 64, 0x80 + n % 64]
  else if n < 0x10000 then [0xE0 + n / 4096, 0x80 + (n / 64) % 64, 0x80 + n % 64]
  else [0xF0 + n / 262144, 0x80 + (n / 4096) % 64, 0x80 + (n / 64) % 64, 0x80 + n % 64]

/-- The bytes of a string literal of the source. -/
def lit (s : String) : GoString :=
  (s.toList.map utf8).flatten

/-- Go `strings.Join(elems, sep)`. -/
def Join (elems : List GoString) (sep : GoString) : GoString :=
  match elems with
  | [] => []
  | [e] => e
  | e :: rest => e ++ sep ++ Join rest sep

/-- Go `strings.Split(s, sep)` for a separator of one byte (the source splits on a comma). -/
def Split (s : GoString) (sep : Nat) : List GoString :=
  match s with
  | [] => [[]]
  | c :: r =>
    if c = sep then [] :: Split r sep
    else
      match Split r sep with
      | [] => [[c]]
      | h :: t => (c :: h) :: t

/-- Go `s[:hi]` with a run-time bound: `none` is the panic "slice bounds out of range". -/
def slicePrefix (s : GoString) (hi : Int) : Option GoString :=
  if 0 ≤ hi ∧ hi ≤ (s.length : Int) then some (s.take hi.toNat) else none

/-! ## Data model -/

/-- The fields of `gofeed.Item` that `main` reads. Times are nanoseconds since the Unix epoch. -/
structure Item where
  Title : GoString
  Link : GoString
  Content : GoString
  Description : GoString
  PublishedParsed : Option Int
  deriving DecidableEq, Repr

/-- The fields of `github.Issue` that `main` reads. -/
structure Issue where
  Title : GoString
  Number : Int
  deriving DecidableEq, Repr

/-- The fields of `github.IssueRequest` that `main` sets; `Labels = none` is the nil pointer. -/
structure IssueRequest where
  Title : GoString
  Body : GoString
  Labels : Option (List GoString)
  deriving DecidableEq, Repr

/-- The action inputs, `a.GetInput(name)` for each name the source reads. -/
structure Inputs where
  lastTimeInput : GoString
  labelsInput : GoString
  prefixInput : GoString
  aggregateInput : GoString
  dryRunInput : GoString
  titleFilterInput : GoString
  titleInclusionFilterInput : GoString
  contentFilterInput : GoString
  characterLimit : GoString
  deriving DecidableEq, Repr

/-- The pure library functions `main` calls. `none` stands for a non-nil `err`;
`regexp.MatchString` returns `false` together with its error, which the source drops. -/
structure Lib where
  MatchString : GoString → GoString → Option Bool
  ConvertString : GoString → Option GoString
  Atoi : GoString → Option Int
  ParseBool : GoString → Option Bool
  ParseDuration : GoString → Option Int

/-- The outside world of one run: `now` is `time.Now()` at line 70, `stamp i` is
`time.Now().Format(time.RFC822)` read while the loop handles the feed item at index `i`,
`Create calls r` is the result of `client.Issues.Create` for request `r` after the
earlier calls `calls` (`none` is an error, `some n` the number of the created issue). -/
structure World where
  now : Int
  stamp : Nat → GoString
  Create : List IssueRequest → IssueRequest → Option Int

/-- The result of a stretch of the loop body: `next` is `continue`, `panic` a run-time
panic, `ok a` falls through with value `a`. -/
inductive Flow (α : Type) where
  | next : Flow α
  | panic : Flow α
  | ok (a : α) : Flow α
  deriving DecidableEq, Repr

/-! ## The template of lines 197-205 -/

/-- A piece of template text outside any action: literal text or a field of the context. -/
inductive Piece where
  | text (s : GoString)
  | field (name : GoString)
  deriving DecidableEq, Repr

/-- A node of a parsed template: a piece, or an `if` on a field with its body. -/
inductive Node where
  | piece (p : Piece)
  | cond (name : GoString) (body : List Piece)
  deriving DecidableEq, Repr

/-- The context `map[string]string` of lines 192-195. -/
abbrev Context := List (GoString × GoString)

/-- A map index on the context; a missing key of a `map[string]string` is the empty string. -/
def Context.get (ctx : Context) (name : GoString) : GoString :=
  match ctx with
  | [] => []
  | (k, v) :: rest => if k = name then v else Context.get rest name

/-- Output of one piece. -/
def Piece.exec (ctx : Context) : Piece → GoString
  | Piece.text s => s
  | Piece.field name => ctx.get name

/-- Output of one node: an `if` prints its body when the field is a non-empty string. -/
def Node.exec (ctx : Context) : Node → GoString
  | Node.piece p => p.exec ctx
  | Node.cond name body =>
    if ctx.get name ≠ [] then (body.map (Piece.exec ctx)).flatten else []

/-- Go `Template.Execute` for templates of these nodes. -/
def Execute (t : List Node) (ctx : Context) : GoString :=
  (t.map (Node.exec ctx)).flatten

/-- The constant `issue` of lines 197-205. -/
def issue : List Node :=
  [ Node.piece (Piece.text (lit "\n")),
    Node.cond (lit "Content")
      [Piece.text (lit "\n"), Piece.field (lit "Content"), Piece.text (lit "\n")],
    Node.piece (Piece.text (lit "\n")),
    Node.cond (lit "Link")
      [Piece.text (lit "\n\n<"), Piece.field (lit "Link"), Piece.text (lit ">\n")],
    Node.piece (Piece.text (lit "\n")) ]

/-! ## The loop over the feed items, lines 126-234 -/

/-- Line 127: the title of the issue for an item. -/
def composeTitle (cfg : Inputs) (item : Item) : GoString :=
  Join [cfg.prefixInput, item.Title] (lit " ")

/-- Lines 130-132: `funk.Find(issues, ...) != nil`, an issue of the snapshot has this title. -/
def findIssue (issues : List Issue) (title : GoString) : Bool :=
  issues.any (fun x => decide (x.Title = title))

/-- Lines 139-142: the content of an item, its description when the content is empty. -/
def itemContent (item : Item) : GoString :=
  if item.Content = [] then item.Description else item.Content

/-- Lines 144-169: the three filters; `true` is `continue`. -/
def filterChain (lib : Lib) (cfg : Inputs) (item : Item) (content : GoString) : Bool :=
  if cfg.titleFilterInput ≠ [] ∧
      (lib.MatchString cfg.titleFilterInput item.Title).getD false = true then true
  else if cfg.titleInclusionFilterInput ≠ [] ∧
      (lib.MatchString cfg.titleInclusionFilterInput item.Title).getD false = false then true
  else if cfg.contentFilterInput ≠ [] ∧
      (lib.MatchString cfg.contentFilterInput content).getD false = true then true
  else false

/-- The ellipsis appended at line 186. -/
def ellipsis : GoString := lit "…"

/-- The notice appended at line 187. -/
def notice : GoString :=
  lit "\n\n---\n## Would you like to know more?\nRead the full article on the following website:"

/-- Lines 177-189: the character limit applied to the converted text. -/
def truncate (lib : Lib) (cfg : Inputs) (markdown : GoString) : Flow GoString :=
  if cfg.characterLimit ≠ [] then
    match lib.Atoi cfg.characterLimit with
    | none => Flow.next
    | some cl =>
      if (markdown.length : Int) > cl then
        match slicePrefix markdown cl with
        | none => Flow.panic
        | some cut => Flow.ok (cut ++ ellipsis ++ notice)
      else Flow.ok markdown
  else Flow.ok markdown

/-- Lines 191-212: the body rendered from the converted text and the link. -/
def renderBody (markdown : GoString) (item : Item) : GoString :=
  Execute issue [(lit "Link", item.Link), (lit "Content", markdown)]

/-- Lines 137-212 for an item that is no duplicate: the rendered body of its issue. -/
def prepare (lib : Lib) (cfg : Inputs) (item : Item) : Flow GoString :=
  let content := itemContent item
  if filterChain lib cfg item content then Flow.next
  else
    match lib.ConvertString content with
    | none => Flow.next
    | some markdown =>
      match truncate lib cfg markdown with
      | Flow.next => Flow.next
      | Flow.panic => Flow.panic
      | Flow.ok markdown => Flow.ok (renderBody markdown item)

/-- Lines 127-212: the part of the loop body that does not read `issuesToCreate`;
`ok (title, body)` reaches the aggregate-or-create decision of line 216. -/
def itemBody (lib : Lib) (cfg : Inputs) (issues : List Issue) (item : Item) :
    Flow (GoString × GoString) :=
  let title := composeTitle cfg item
  if findIssue issues title then Flow.next
  else
    match prepare lib cfg item with
    | Flow.next => Flow.next
    | Flow.panic => Flow.panic
    | Flow.ok body => Flow.ok (title, body)

/-- Lines 219-225: a new request. -/
def newRequest (labels : List GoString) (title body : GoString) : IssueRequest :=
  { Title := title, Body := body, Labels := if labels.length ≠ 0 then some labels else none }

/-- Lines 228-232: the first request with the time stamp as title and the body appended. -/
def foldInto (w : World) (cfg : Inputs) (i : Nat) (body : GoString) (r : IssueRequest) :
    IssueRequest :=
  { r with
    Title := Join [cfg.prefixInput, w.stamp i] (lit " ")
    Body := r.Body ++ lit "\n\n" ++ body }

/-- Lines 216-233: create a request, or fold into the first one in aggregate mode. -/
def enqueue (lib : Lib) (w : World) (cfg : Inputs) (labels : List GoString) (i : Nat)
    (title body : GoString) (issuesToCreate : List IssueRequest) : List IssueRequest :=
  match lib.ParseBool cfg.aggregateInput, issuesToCreate with
  | some true, r :: rest => foldInto w cfg i body r :: rest
  | _, _ => issuesToCreate ++ [newRequest labels title body]

/-- Lines 126-234 from the item at index `i` on, with `issuesToCreate` so far; `none` is a
run aborted by a panic. -/
def loopFrom (lib : Lib) (w : World) (cfg : Inputs) (labels : List GoString)
    (issues : List Issue) : Nat → List Item → List IssueRequest → Option (List IssueRequest)
  | _, [], issuesToCreate => some issuesToCreate
  | i, item :: rest, issuesToCreate =>
    match itemBody lib cfg issues item with
    | Flow.next => loopFrom lib w cfg labels issues (i + 1) rest issuesToCreate
    | Flow.panic => none
    | Flow.ok (title, body) =>
      loopFrom lib w cfg labels issues (i + 1) rest
        (enqueue lib w cfg labels i title body issuesToCreate)

/-- Lines 76-77: the labels. -/
def parseLabels (cfg : Inputs) : List GoString :=
  Split cfg.labelsInput 44

/-- Lines 122-234: the requests queued for the items of the feed. -/
def loop (lib : Lib) (w : World) (cfg : Inputs) (issues : List Issue) (items : List Item) :
    Option (List IssueRequest) :=
  loopFrom lib w cfg (parseLabels cfg) issues 0 items []

/-! ## Before and after the loop -/

/-- The zero `time.Time` (January 1 of year 1, UTC) in nanoseconds since the Unix epoch. -/
def zeroTime : Int := -62135596800000000000

/-- Lines 63-73: the cutoff, the zero time when the duration does not parse. -/
def limitTime (lib : Lib) (w : World) (cfg : Inputs) : Int :=
  match lib.ParseDuration cfg.lastTimeInput with
  | some d => w.now + (if d > 0 then -d else d)
  | none => zeroTime

/-- Lines 101-108: the items kept by the time filter. -/
def removeOld (limit : Int) (items : List Item) : List Item :=
  items.filter fun x =>
    match x.PublishedParsed with
    | some t => decide (t > limit)
    | none => true

/-- State of the submission loop: the requests passed to `client.Issues.Create` so far
and the numbers of `createdIssues`. -/
structure Submitted where
  calls : List IssueRequest
  createdIssues : List Int
  deriving DecidableEq, Repr

/-- Lines 236-249: the submission loop. -/
def submitFrom (lib : Lib) (w : World) (cfg : Inputs) :
    List IssueRequest → Submitted → Submitted
  | [], s => s
  | issueRequest :: rest, s =>
    match lib.ParseBool cfg.dryRunInput with
    | some true => submitFrom lib w cfg rest s
    | _ =>
      match w.Create s.calls issueRequest with
      | none => submitFrom lib w cfg rest { s with calls := s.calls ++ [issueRequest] }
      | some n =>
        submitFrom lib w cfg rest
          { calls := s.calls ++ [issueRequest], createdIssues := s.createdIssues ++ [n] }

/-- Go `strconv.Itoa`. -/
def Itoa (n : Int) : GoString :=
  lit (toString n)

/-- What a run leaves behind: the requests sent to the tracker and the output `issues`. -/
structure Outputs where
  calls : List IssueRequest
  issues : GoString
  deriving DecidableEq, Repr

/-- The function `main` on a parsed feed and a listed snapshot; `none` is a run aborted by
a panic. -/
def main (lib : Lib) (w : World) (cfg : Inputs) (feed : List Item) (issues : List Issue) :
    Option Outputs :=
  match loop lib w cfg issues (removeOld (limitTime lib w cfg) feed) with
  | none => none
  | some issuesToCreate =>
    let s := submitFrom lib w cfg issuesToCreate { calls := [], createdIssues := [] }
    some { calls := s.calls, issues := Join (s.createdIssues.map Itoa) (lit ",") }

/-! ## One implementation of the libraries, for concrete runs -/

/-- Value of a string of decimal digits, `none` when empty or when a byte is no digit. -/
def parseDigits (s : GoString) : Option Nat :=
  if s = [] then none
  else s.foldl (fun acc c =>
    match acc with
    | none => none
    | some n => if 48 ≤ c ∧ c ≤ 57 then some (n * 10 + (c - 48)) else none) (some 0)

/-- Go `strconv.Atoi` on a 64-bit platform. -/
def goAtoi (s : GoString) : Option Int :=
  match s with
  | 43 :: r => (parseDigits r).bind fun n => if n < 2 ^ 63 then some (n : Int) else none
  | 45 :: r => (parseDigits r).bind fun n => if n ≤ 2 ^ 63 then some (-(n : Int)) else none
  | _ => (parseDigits s).bind fun n => if n < 2 ^ 63 then some (n : Int) else none

/-- Go `strconv.ParseBool`. -/
def goParseBool (s : GoString) : Option Bool :=
  if s ∈ [lit "1", lit "t", lit "T", lit "TRUE", lit "true", lit "True"] then some true
  else if s ∈ [lit "0", lit "f", lit "F", lit "FALSE", lit "false", lit "False"] then some false
  else none

/-- The byte is an ASCII letter or digit. -/
def isAlnum (c : Nat) : Bool :=
  (48 ≤ c && c ≤ 57) || (65 ≤ c && c ≤ 90) || (97 ≤ c && c ≤ 122)

/-- The pattern occurs in the text. -/
def occursIn (pat : GoString) : GoString → Bool
  | [] => pat.isEmpty
  | c :: r => pat.isPrefixOf (c :: r) || occursIn pat r

/-- Go `regexp.MatchString` on patterns of ASCII letters and digits, which match the
texts they occur in; this implementation reports every other pattern as malformed. -/
def goMatchString (pat s : GoString) : Option Bool :=
  if pat.all isAlnum then some (occursIn pat s) else none

/-- The converter on texts of ASCII letters and digits, which it returns unchanged; this
implementation reports an error on every other text. -/
def goConvertString (s : GoString) : Option GoString :=
  if s.all isAlnum then some s else none

/-- Go `time.ParseDuration` on durations of the form digits followed by `h`, with an
optional sign; this implementation reports an error on every other string. -/
def goParseDuration (s : GoString) : Option Int :=
  match s.getLast? with
  | some 104 => (goAtoi s.dropLast).map fun n => n * 3600000000000
  | _ => none

/-- The libraries above. -/
def goLib : Lib :=
  { MatchString := goMatchString
    ConvertString := goConvertString
    Atoi := goAtoi
    ParseBool := goParseBool
    ParseDuration := goParseDuration }

/-- A world whose clock reads `04 Nov 26 10:00 UTC` at the first item and one minute more at
each further item, and whose tracker numbers the created issues 1, 2, 3 and so on. -/
def goWorld : World :=
  { now := 1793786400000000000
    stamp := fun i => lit "04 Nov 26 10:" ++ [48 + (i / 10) % 6, 48 + i % 10] ++ lit " UTC"
    Create := fun calls _ => some ((calls.length : Int) + 1) }

/-! ## Concrete inputs -/

/-- Inputs with the title head `RSS`, no filter, no character limit, no aggregation. -/
def plainCfg : Inputs :=
  { lastTimeInput := []
    labelsInput := []
    prefixInput := lit "RSS"
    aggregateInput := lit "false"
    dryRunInput := lit "false"
    titleFilterInput := []
    titleInclusionFilterInput := []
    contentFilterInput := []
    characterLimit := [] }

/-- The inputs `plainCfg` with aggregation switched on. -/
def aggregateCfg : Inputs :=
  { plainCfg with aggregateInput := lit "true" }

/-- A feed item titled `alpha` with content `hello`. -/
def itemA : Item :=
  { Title := lit "alpha"
    Link := lit "https://example.org/a"
    Content := lit "hello"
    Description := []
    PublishedParsed := none }

/-- A feed item titled `beta` with no content and the description `world`. -/
def itemB : Item :=
  { Title := lit "beta"
    Link := lit "https://example.org/b"
    Content := []
    Description := lit "world"
    PublishedParsed := none }

/-- The request that aggregate mode queues for the feed of `itemA` and `itemB`. -/
def aggregatedAB : IssueRequest :=
  { Title := lit "RSS 04 Nov 26 10:01 UTC"
    Body := lit "\n\nhello\n\n\n\n<https://example.org/a>\n\n\n\n\n\nworld\n\n\n\n<https://example.org/b>\n\n"
    Labels := some [[]] }

/-- The request queued for `itemA` alone. -/
def requestA : IssueRequest :=
  { Title := lit "RSS alpha"
    Body := lit "\n\nhello\n\n\n\n<https://example.org/a>\n\n"
    Labels := some [[]] }

/-- The inputs `plainCfg` with the three filters set: titles with `spam` are excluded, titles
need `al`, contents with `bad` are excluded. -/
def filterCfg : Inputs :=
  { plainCfg with
    titleFilterInput := lit "spam"
    titleInclusionFilterInput := lit "al"
    contentFilterInput := lit "bad" }

/-- The inputs `plainCfg` with the character limit `3`. -/
def limitCfg : Inputs :=
  { plainCfg with characterLimit := lit "3" }

/-- The inputs `plainCfg` with the character limit `0`. -/
def zeroLimitCfg : Inputs :=
  { plainCfg with characterLimit := lit "0" }

/-- The inputs `plainCfg` with the dry run switched on. -/
def dryCfg : Inputs :=
  { plainCfg with dryRunInput := lit "true" }

/-- The inputs `plainCfg` with the character limit `-1`. -/
def negativeLimitCfg : Inputs :=
  { plainCfg with characterLimit := lit "-1" }

/-- The inputs `plainCfg` with the character limit `abc`, which is no integer. -/
def badLimitCfg : Inputs :=
  { plainCfg with characterLimit := lit "abc" }

/-- The inputs `plainCfg` with the malformed pattern `(` as title exclusion and as content
exclusion. -/
def badExcludeCfg : Inputs :=
  { plainCfg with
    titleFilterInput := lit "("
    contentFilterInput := lit "(" }

/-- The inputs `plainCfg` with the malformed pattern `(` as title inclusion. -/
def badIncludeCfg : Inputs :=
  { plainCfg with titleInclusionFilterInput := lit "(" }

/-- The inputs `plainCfg` with the title inclusion `al` and the content exclusion `ell`. -/
def precedenceCfg : Inputs :=
  { plainCfg with
    titleInclusionFilterInput := lit "al"
    contentFilterInput := lit "ell" }

/-- The inputs `plainCfg` with the duration `24h`. -/
def dayCfg : Inputs :=
  { plainCfg with lastTimeInput := lit "24h" }

/-- The inputs `plainCfg` with the labels `bug,rss`. -/
def labelCfg : Inputs :=
  { plainCfg with labelsInput := lit "bug,rss" }

/-- A feed item published 48 hours before the clock of `goWorld`. -/
def itemOld : Item :=
  { Title := lit "gamma"
    Link := lit "https://example.org/c"
    Content := lit "past"
    Description := []
    PublishedParsed := some (1793786400000000000 - 48 * 3600000000000) }

/-- The request queued for `itemB` alone. -/
def requestB : IssueRequest :=
  { Title := lit "RSS beta"
    Body := lit "\n\nworld\n\n\n\n<https://example.org/b>\n\n"
    Labels := some [[]] }

/-- The world `goWorld` with a tracker that fails on its first call. -/
def flakyWorld : World :=
  { goWorld with
    Create := fun calls _ => if calls.length = 0 then none else some ((calls.length : Int) + 1) }

/-! ## Notions used to state the properties -/

/-- The title and body with which an item reaches line 216, if it does: the item is no
duplicate, passes the filters and is normalized without error. -/
def reached (lib : Lib) (cfg : Inputs) (issues : List Issue) (item : Item) :
    Option (GoString × GoString) :=
  match itemBody lib cfg issues item with
  | Flow.ok p => some p
  | _ => none

/-- The item qualifies: it reaches line 216. -/
def qualifies (lib : Lib) (cfg : Inputs) (issues : List Issue) (item : Item) : Bool :=
  (reached lib cfg issues item).isSome

/-- The rendered bodies of the qualifying items, in feed order. -/
def bodies (lib : Lib) (cfg : Inputs) (issues : List Issue) (items : List Item) :
    List GoString :=
  (items.filterMap (reached lib cfg issues)).map Prod.snd

/-- No item of the list runs into the panic of line 186. -/
def NoPanic (lib : Lib) (cfg : Inputs) (issues : List Issue) (items : List Item) : Prop :=
  ∀ x ∈ items, itemBody lib cfg issues x ≠ Flow.panic

instance (lib : Lib) (cfg : Inputs) (issues : List Issue) (items : List Item) :
    Decidable (NoPanic lib cfg issues items) := by
  unfold NoPanic; infer_instance

/-- The aggregate branch (lines 228-232) run over the items from index `i` on, starting from
the first request `r`. -/
def foldAll (lib : Lib) (w : World) (cfg : Inputs) (issues : List Issue) :
    Nat → List Item → IssueRequest → IssueRequest
  | _, [], r => r
  | i, x :: rest, r =>
    match reached lib cfg issues x with
    | some p => foldAll lib w cfg issues (i + 1) rest (foldInto w cfg i p.2 r)
    | none => foldAll lib w cfg issues (i + 1) rest r

/-- The aggregate mode run over the items from index `i` on, starting from an empty queue:
the first qualifying item creates the request, the later ones are folded into it. -/
def aggAll (lib : Lib) (w : World) (cfg : Inputs) (labels : List GoString)
    (issues : List Issue) : Nat → List Item → List IssueRequest
  | _, [] => []
  | i, x :: rest =>
    match reached lib cfg issues x with
    | some p => [foldAll lib w cfg issues (i + 1) rest (newRequest labels p.1 p.2)]
    | none => aggAll lib w cfg labels issues (i + 1) rest

/-- The numbers the tracker returns for the requests of the queue, each request sent after
the calls `calls` and the requests before it; a failed creation leaves no number. -/
def createdNumbers (w : World) (calls : List IssueRequest) (q : List IssueRequest) :
    List Int :=
  (List.range q.length).filterMap fun k => q[k]?.bind (w.Create (calls ++ q.take k))

/-! ## Lemmas on the loop -/

theorem Join_pair (a b sep : GoString) : Join [a, b] sep = a ++ sep ++ b := rfl

theorem Join_cons_cons (a b : GoString) (l : List GoString) (sep : GoString) :
    Join (a :: b :: l) sep = a ++ sep ++ Join (b :: l) sep := rfl

theorem Join_append_head (a b : GoString) (l : List GoString) (sep : GoString) :
    Join ((a ++ sep ++ b) :: l) sep = Join (a :: b :: l) sep := by
  cases l with
  | nil => rfl
  | cons c l => simp [Join_cons_cons, List.append_assoc]

theorem findIssue_iff (issues : List Issue) (title : GoString) :
    findIssue issues title = true ↔ ∃ x ∈ issues, x.Title = title := by
  simp [findIssue]

theorem itemBody_ok (lib : Lib) (cfg : Inputs) (issues : List Issue) (x : Item)
    (p : GoString × GoString) :
    itemBody lib cfg issues x = Flow.ok p ↔
      findIssue issues (composeTitle cfg x) = false ∧
        ∃ b, prepare lib cfg x = Flow.ok b ∧ p = (composeTitle cfg x, b) := by
  unfold itemBody
  by_cases hf : findIssue issues (composeTitle cfg x) = true
  · simp [hf]
  · cases hp : prepare lib cfg x <;> simp [hf, eq_comm]

theorem itemBody_next (lib : Lib) (cfg : Inputs) (issues : List Issue) (x : Item) :
    itemBody lib cfg issues x = Flow.next ↔
      findIssue issues (composeTitle cfg x) = true ∨ prepare lib cfg x = Flow.next := by
  unfold itemBody
  by_cases hf : findIssue issues (composeTitle cfg x) = true
  · simp [hf]
  · cases hp : prepare lib cfg x <;> simp [hf]

theorem itemBody_panic (lib : Lib) (cfg : Inputs) (issues : List Issue) (x : Item) :
    itemBody lib cfg issues x = Flow.panic ↔
      findIssue issues (composeTitle cfg x) = false ∧ prepare lib cfg x = Flow.panic := by
  unfold itemBody
  by_cases hf : findIssue issues (composeTitle cfg x) = true
  · simp [hf]
  · cases hp : prepare lib cfg x <;> simp [hf]

theorem reached_eq_some (lib : Lib) (cfg : Inputs) (issues : List Issue) (x : Item)
    (p : GoString × GoString) :
    reached lib cfg issues x = some p ↔ itemBody lib cfg issues x = Flow.ok p := by
  unfold reached
  cases itemBody lib cfg issues x <;> simp

theorem reached_title (lib : Lib) (cfg : Inputs) (issues : List Issue) (x : Item)
    (p : GoString × GoString) (h : reached lib cfg issues x = some p) :
    p.1 = composeTitle cfg x := by
  rw [reached_eq_some, itemBody_ok] at h
  obtain ⟨_, b, _, hp⟩ := h
  rw [hp]

theorem NoPanic_tail {lib : Lib} {cfg : Inputs} {issues : List Issue} {x : Item}
    {rest : List Item} (h : NoPanic lib cfg issues (x :: rest)) : NoPanic lib cfg issues rest :=
  fun y hy => h y (List.mem_cons_of_mem _ hy)

theorem enqueue_create (lib : Lib) (w : World) (cfg : Inputs) (labels : List GoString)
    (i : Nat) (t b : GoString) (q : List IssueRequest)
    (hmode : lib.ParseBool cfg.aggregateInput ≠ some true) :
    enqueue lib w cfg labels i t b q = q ++ [newRequest labels t b] := by
  unfold enqueue
  split
  · simp_all
  · rfl

theorem enqueue_fold (lib : Lib) (w : World) (cfg : Inputs) (labels : List GoString)
    (i : Nat) (t b : GoString) (r : IssueRequest) (tl : List IssueRequest)
    (hagg : lib.ParseBool cfg.aggregateInput = some true) :
    enqueue lib w cfg labels i t b (r :: tl) = foldInto w cfg i b r :: tl := by
  simp [enqueue, hagg]

theorem enqueue_nil (lib : Lib) (w : World) (cfg : Inputs) (labels : List GoString)
    (i : Nat) (t b : GoString) :
    enqueue lib w cfg labels i t b [] = [newRequest labels t b] := by
  unfold enqueue
  split <;> simp_all

theorem loopFrom_create (lib : Lib) (w : World) (cfg : Inputs) (labels : List GoString)
    (issues : List Issue) (hmode : lib.ParseBool cfg.aggregateInput ≠ some true) :
    ∀ (items : List Item) (i : Nat) (q : List IssueRequest), NoPanic lib cfg issues items →
      loopFrom lib w cfg labels issues i items q =
        some (q ++ (items.filterMap (reached lib cfg issues)).map
          (fun p => newRequest labels p.1 p.2))
  | [], i, q, _ => by simp [loopFrom]
  | x :: rest, i, q, hnp => by
    have hx := hnp x (List.mem_cons_self _ _)
    cases h : itemBody lib cfg issues x with
    | next =>
      simp [loopFrom, h, reached,
        loopFrom_create lib w cfg labels issues hmode rest (i + 1) q (NoPanic_tail hnp)]
    | panic => exact absurd h hx
    | ok p =>
      obtain ⟨t, b⟩ := p
      simp [loopFrom, h, reached, enqueue_create lib w cfg labels i t b q hmode,
        loopFrom_create lib w cfg labels issues hmode rest (i + 1) _ (NoPanic_tail hnp)]

theorem loopFrom_fold (lib : Lib) (w : World) (cfg : Inputs) (labels : List GoString)
    (issues : List Issue) (hagg : lib.ParseBool cfg.aggregateInput = some true) :
    ∀ (items : List Item) (i : Nat) (r : IssueRequest) (tl : List IssueRequest),
      NoPanic lib cfg issues items →
      loopFrom lib w cfg labels issues i items (r :: tl) =
        some (foldAll lib w cfg issues i items r :: tl)
  | [], i, r, tl, _ => by simp [loopFrom, foldAll]
  | x :: rest, i, r, tl, hnp => by
    have hx := hnp x (List.mem_cons_self _ _)
    cases h : itemBody lib cfg issues x with
    | next =>
      simp [loopFrom, foldAll, h, reached,
        loopFrom_fold lib w cfg labels issues hagg rest (i + 1) r tl (NoPanic_tail hnp)]
    | panic => exact absurd h hx
    | ok p =>
      obtain ⟨t, b⟩ := p
      simp [loopFrom, foldAll, h, reached, enqueue_fold lib w cfg labels i t b r tl hagg,
        loopFrom_fold lib w cfg labels issues hagg rest (i + 1) _ tl (NoPanic_tail hnp)]

theorem loopFrom_aggregate (lib : Lib) (w : World) (cfg : Inputs) (labels : List GoString)
    (issues : List Issue) (hagg : lib.ParseBool cfg.aggregateInput = some true) :
    ∀ (items : List Item) (i : Nat), NoPanic lib cfg issues items →
      loopFrom lib w cfg labels issues i items [] = some (aggAll lib w cfg labels issues i items)
  | [], i, _ => by simp [loopFrom, aggAll]
  | x :: rest, i, hnp => by
    have hx := hnp x (List.mem_cons_self _ _)
    cases h : itemBody lib cfg issues x with
    | next =>
      simp [loopFrom, aggAll, h, reached,
        loopFrom_aggregate lib w cfg labels issues hagg rest (i + 1) (NoPanic_tail hnp)]
    | panic => exact absurd h hx
    | ok p =>
      obtain ⟨t, b⟩ := p
      simp [loopFrom, aggAll, h, reached, enqueue_nil,
        loopFrom_fold lib w cfg labels issues hagg rest (i + 1) _ [] (NoPanic_tail hnp)]

theorem loopFrom_noPanic (lib : Lib) (w : World) (cfg : Inputs) (labels : List GoString)
    (issues : List Issue) :
    ∀ (items : List Item) (i : Nat) (q q' : List IssueRequest),
      loopFrom lib w cfg labels issues i items q = some q' → NoPanic lib cfg issues items
  | [], _, _, _, _ => fun _ hx => absurd hx (List.not_mem_nil _)
  | x :: rest, i, q, q', h => by
    intro y hy
    cases hb : itemBody lib cfg issues x with
    | next =>
      rw [loopFrom, hb] at h
      rcases List.mem_cons.1 hy with rfl | hy
      · simp [hb]
      · exact loopFrom_noPanic lib w cfg labels issues rest (i + 1) q q' h y hy
    | panic =>
      rw [loopFrom, hb] at h
      simp at h
    | ok p =>
      obtain ⟨t, b⟩ := p
      rw [loopFrom, hb] at h
      rcases List.mem_cons.1 hy with rfl | hy
      · simp [hb]
      · exact loopFrom_noPanic lib w cfg labels issues rest (i + 1) _ q' h y hy

theorem loopFrom_all_next (lib : Lib) (w : World) (cfg : Inputs) (labels : List GoString)
    (issues : List Issue) :
    ∀ (items : List Item) (i : Nat) (q : List IssueRequest),
      (∀ x ∈ items, itemBody lib cfg issues x = Flow.next) →
      loopFrom lib w cfg labels issues i items q = some q
  | [], _, _, _ => by simp [loopFrom]
  | x :: rest, i, q, h => by
    rw [loopFrom, h x (List.mem_cons_self _ _)]
    exact loopFrom_all_next lib w cfg labels issues rest (i + 1) q
      (fun y hy => h y (List.mem_cons_of_mem _ hy))

theorem foldAll_none (lib : Lib) (w : World) (cfg : Inputs) (issues : List Issue) :
    ∀ (items : List Item) (i : Nat) (r : IssueRequest),
      (∀ x ∈ items, reached lib cfg issues x = none) → foldAll lib w cfg issues i items r = r
  | [], _, _, _ => rfl
  | x :: rest, i, r, h => by
    rw [foldAll, h x (List.mem_cons_self _ _)]
    exact foldAll_none lib w cfg issues rest (i + 1) r
      (fun y hy => h y (List.mem_cons_of_mem _ hy))

theorem foldAll_append (lib : Lib) (w : World) (cfg : Inputs) (issues : List Issue) :
    ∀ (l₁ l₂ : List Item) (i : Nat) (r : IssueRequest),
      foldAll lib w cfg issues i (l₁ ++ l₂) r =
        foldAll lib w cfg issues (i + l₁.length) l₂ (foldAll lib w cfg issues i l₁ r)
  | [], l₂, i, r => by simp [foldAll]
  | x :: rest, l₂, i, r => by
    have harith : i + 1 + rest.length = i + (rest.length + 1) := by omega
    cases h : reached lib cfg issues x with
    | none =>
      have ih := foldAll_append lib w cfg issues rest l₂ (i + 1) r
      rw [harith] at ih
      simpa only [List.cons_append, foldAll, h, List.length_cons] using ih
    | some p =>
      have ih := foldAll_append lib w cfg issues rest l₂ (i + 1) (foldInto w cfg i p.2 r)
      rw [harith] at ih
      simpa only [List.cons_append, foldAll, h, List.length_cons] using ih

theorem foldAll_Body (lib : Lib) (w : World) (cfg : Inputs) (issues : List Issue) :
    ∀ (items : List Item) (i : Nat) (r : IssueRequest),
      (foldAll lib w cfg issues i items r).Body =
        Join (r.Body :: bodies lib cfg issues items) (lit "\n\n")
  | [], _, _ => by simp [foldAll, bodies, Join]
  | x :: rest, i, r => by
    cases h : reached lib cfg issues x with
    | none =>
      have hb : bodies lib cfg issues (x :: rest) = bodies lib cfg issues rest := by
        simp [bodies, h]
      rw [foldAll, h, hb]
      exact foldAll_Body lib w cfg issues rest (i + 1) r
    | some p =>
      have hb : bodies lib cfg issues (x :: rest) = p.2 :: bodies lib cfg issues rest := by
        simp [bodies, h]
      rw [foldAll, h, hb]
      simp only []
      rw [foldAll_Body lib w cfg issues rest (i + 1) _, ← Join_append_head]
      rfl

theorem reached_none_iff (lib : Lib) (cfg : Inputs) (issues : List Issue) (x : Item) :
    reached lib cfg issues x = none ↔ qualifies lib cfg issues x = false := by
  unfold qualifies
  cases reached lib cfg issues x <;> simp

theorem filter_qualifies_cons_some (lib : Lib) (cfg : Inputs) (issues : List Issue) (x : Item)
    (rest : List Item) (p : GoString × GoString) (h : reached lib cfg issues x = some p) :
    (x :: rest).filter (qualifies lib cfg issues) = x :: rest.filter (qualifies lib cfg issues) := by
  have : qualifies lib cfg issues x = true := by simp [qualifies, h]
  simp [List.filter_cons, this]

theorem filter_qualifies_cons_none (lib : Lib) (cfg : Inputs) (issues : List Issue) (x : Item)
    (rest : List Item) (h : reached lib cfg issues x = none) :
    (x :: rest).filter (qualifies lib cfg issues) = rest.filter (qualifies lib cfg issues) := by
  have : qualifies lib cfg issues x = false := (reached_none_iff lib cfg issues x).1 h
  simp [List.filter_cons, this]

theorem aggAll_split (lib : Lib) (w : World) (cfg : Inputs) (labels : List GoString)
    (issues : List Issue) (x : Item) (post : List Item) (p : GoString × GoString)
    (hx : reached lib cfg issues x = some p) :
    ∀ (pre : List Item) (i : Nat), (∀ y ∈ pre, reached lib cfg issues y = none) →
      aggAll lib w cfg labels issues i (pre ++ x :: post) =
        [foldAll lib w cfg issues (i + pre.length + 1) post (newRequest labels p.1 p.2)]
  | [], i, _ => by simp [aggAll, hx]
  | y :: pre, i, h => by
    have harith : i + 1 + pre.length + 1 = i + (pre.length + 1) + 1 := by omega
    have ih := aggAll_split lib w cfg labels issues x post p hx pre (i + 1)
      (fun z hz => h z (List.mem_cons_of_mem _ hz))
    rw [harith] at ih
    simpa only [List.cons_append, aggAll, h y (List.mem_cons_self _ _), List.length_cons]
      using ih

theorem aggAll_all_none (lib : Lib) (w : World) (cfg : Inputs) (labels : List GoString)
    (issues : List Issue) :
    ∀ (items : List Item) (i : Nat), (∀ y ∈ items, reached lib cfg issues y = none) →
      aggAll lib w cfg labels issues i items = []
  | [], _, _ => rfl
  | y :: rest, i, h => by
    rw [aggAll, h y (List.mem_cons_self _ _)]
    exact aggAll_all_none lib w cfg labels issues rest (i + 1)
      (fun z hz => h z (List.mem_cons_of_mem _ hz))

theorem exists_first_qualifying (lib : Lib) (cfg : Inputs) (issues : List Issue) :
    ∀ (items : List Item), (∃ y ∈ items, qualifies lib cfg issues y = true) →
      ∃ pre y post p, items = pre ++ y :: post ∧
        (∀ z ∈ pre, reached lib cfg issues z = none) ∧ reached lib cfg issues y = some p
  | [], h => by simp at h
  | x :: rest, h => by
    cases hx : reached lib cfg issues x with
    | some p => exact ⟨[], x, rest, p, rfl, by simp, hx⟩
    | none =>
      have hrest : ∃ y ∈ rest, qualifies lib cfg issues y = true := by
        obtain ⟨y, hy, hq⟩ := h
        rcases List.mem_cons.1 hy with rfl | hy
        · rw [(reached_none_iff lib cfg issues y).1 hx] at hq
          exact absurd hq (by simp)
        · exact ⟨y, hy, hq⟩
      obtain ⟨pre, y, post, p, hsplit, hpre, hy⟩ :=
        exists_first_qualifying lib cfg issues rest hrest
      refine ⟨x :: pre, y, post, p, by simp [hsplit], ?_, hy⟩
      intro z hz
      rcases List.mem_cons.1 hz with rfl | hz
      · exact hx
      · exact hpre z hz

theorem bodies_append (lib : Lib) (cfg : Inputs) (issues : List Issue) (l₁ l₂ : List Item) :
    bodies lib cfg issues (l₁ ++ l₂) = bodies lib cfg issues l₁ ++ bodies lib cfg issues l₂ := by
  simp [bodies, List.filterMap_append]

theorem filterMap_reached_none (lib : Lib) (cfg : Inputs) (issues : List Issue)
    (l : List Item) (h : ∀ z ∈ l, reached lib cfg issues z = none) :
    l.filterMap (reached lib cfg issues) = [] := by
  induction l with
  | nil => rfl
  | cons a l ih =>
    rw [List.filterMap_cons, h a (List.mem_cons_self _ _)]
    exact ih (fun z hz => h z (List.mem_cons_of_mem _ hz))

theorem forall₂_bodies (lib : Lib) (cfg : Inputs) (issues : List Issue) :
    ∀ (items : List Item),
      List.Forall₂ (fun x b => prepare lib cfg x = Flow.ok b)
        (items.filter (qualifies lib cfg issues)) (bodies lib cfg issues items)
  | [] => by simp [bodies]
  | x :: rest => by
    cases hx : reached lib cfg issues x with
    | none =>
      have hb : bodies lib cfg issues (x :: rest) = bodies lib cfg issues rest := by
        simp [bodies, hx]
      rw [filter_qualifies_cons_none lib cfg issues x rest hx, hb]
      exact forall₂_bodies lib cfg issues rest
    | some p =>
      have hb : bodies lib cfg issues (x :: rest) = p.2 :: bodies lib cfg issues rest := by
        simp [bodies, hx]
      rw [filter_qualifies_cons_some lib cfg issues x rest p hx, hb]
      refine List.Forall₂.cons ?_ (forall₂_bodies lib cfg issues rest)
      obtain ⟨_, b, hb', hp⟩ := (itemBody_ok lib cfg issues x p).1
        ((reached_eq_some lib cfg issues x p).1 hx)
      rw [hp]
      exact hb'

theorem aggAll_body (lib : Lib) (w : World) (cfg : Inputs) (labels : List GoString)
    (issues : List Issue) (items : List Item) (i : Nat)
    (hq : items.filter (qualifies lib cfg issues) ≠ []) :
    ∃ r, aggAll lib w cfg labels issues i items = [r] ∧
      r.Body = Join (bodies lib cfg issues items) (lit "\n\n") := by
  have hex : ∃ y ∈ items, qualifies lib cfg issues y = true := by
    by_contra hne
    apply hq
    rw [List.filter_eq_nil_iff]
    intro a ha hqa
    exact hne ⟨a, ha, hqa⟩
  obtain ⟨pre, y, post, p, hsplit, hpre, hy⟩ := exists_first_qualifying lib cfg issues items hex
  refine ⟨_, by rw [hsplit]; exact aggAll_split lib w cfg labels issues y post p hy pre i hpre, ?_⟩
  rw [foldAll_Body, hsplit, bodies_append]
  have h1 : bodies lib cfg issues pre = [] := by
    simp [bodies, filterMap_reached_none lib cfg issues pre hpre]
  have h2 : bodies lib cfg issues (y :: post) = p.2 :: bodies lib cfg issues post := by
    simp [bodies, hy]
  rw [h1, h2]
  rfl

theorem aggAll_length (lib : Lib) (w : World) (cfg : Inputs) (labels : List GoString)
    (issues : List Issue) :
    ∀ (items : List Item) (i : Nat),
      (aggAll lib w cfg labels issues i items).length =
        if items.any (qualifies lib cfg issues) = true then 1 else 0
  | [], _ => by simp [aggAll]
  | x :: rest, i => by
    cases hx : reached lib cfg issues x with
    | none =>
      have hqx := (reached_none_iff lib cfg issues x).1 hx
      rw [aggAll, hx, List.any_cons, hqx, Bool.false_or]
      exact aggAll_length lib w cfg labels issues rest (i + 1)
    | some p =>
      have hqx : qualifies lib cfg issues x = true := by simp [qualifies, hx]
      simp [aggAll, hx, hqx]

theorem truncate_ne_panic (lib : Lib) (cfg : Inputs) (t : GoString)
    (hlim : ∀ n, lib.Atoi cfg.characterLimit = some n → 0 ≤ n) :
    truncate lib cfg t ≠ Flow.panic := by
  unfold truncate
  by_cases hset : cfg.characterLimit = []
  · simp [hset]
  · rw [if_pos hset]
    cases hn : lib.Atoi cfg.characterLimit with
    | none => simp
    | some n =>
      have h0 := hlim n hn
      by_cases hlt : (t.length : Int) > n
      · have hs : slicePrefix t n = some (t.take n.toNat) := by
          unfold slicePrefix
          rw [if_pos ⟨h0, le_of_lt hlt⟩]
        simp [hlt, hs]
      · simp [hlt]

theorem NoPanic_of_limit (lib : Lib) (cfg : Inputs) (issues : List Issue) (items : List Item)
    (hlim : ∀ n, lib.Atoi cfg.characterLimit = some n → 0 ≤ n) :
    NoPanic lib cfg issues items := by
  intro x _ hx
  have hp := ((itemBody_panic lib cfg issues x).1 hx).2
  unfold prepare at hp
  simp only at hp
  split at hp
  · simp at hp
  · split at hp
    · simp at hp
    · rename_i md _
      have hne := truncate_ne_panic lib cfg md hlim
      split at hp
      · simp at hp
      · rename_i ht
        exact hne ht
      · simp at hp

/-! ## The claims -/

set_option maxRecDepth 100000

/-- C1, counterexample. In aggregate mode a feed of two qualifying entries queues one request
titled with the time stamp; a second run whose snapshot holds the issue created by the first
run queues one request again, not zero. -/
theorem second_run_queues_again_in_aggregate_mode :
    loop goLib goWorld aggregateCfg [] [itemA, itemB] = some [aggregatedAB] ∧
      loop goLib goWorld aggregateCfg [{ Title := aggregatedAB.Title, Number := 1 }]
        [itemA, itemB] = some [aggregatedAB] := by
  decide

/-- C1, amended. When aggregate mode is off (the option is false or does not parse) or at
most one entry qualifies in the first run, and the first run queues `q`, then a second run
over the same items, against a snapshot that holds every title of the first snapshot and
every title of `q`, queues no request, whatever the clock of the second run reads. -/
theorem second_run_queues_nothing (lib : Lib) (w w' : World) (cfg : Inputs)
    (issues issues' : List Issue) (items : List Item) (q : List IssueRequest)
    (hmode : lib.ParseBool cfg.aggregateInput ≠ some true ∨
      (items.filter (qualifies lib cfg issues)).length ≤ 1)
    (hfirst : loop lib w cfg issues items = some q)
    (hold : ∀ x ∈ issues, ∃ y ∈ issues', y.Title = x.Title)
    (hnew : ∀ r ∈ q, ∃ y ∈ issues', y.Title = r.Title) :
    loop lib w' cfg issues' items = some [] := by
  have hnp : NoPanic lib cfg issues items :=
    loopFrom_noPanic lib w cfg (parseLabels cfg) issues items 0 [] q hfirst
  have hkey : ∀ x ∈ items, ∀ p, reached lib cfg issues x = some p →
      ∃ r ∈ q, r.Title = p.1 := by
    intro x hx p hp
    by_cases hagg : lib.ParseBool cfg.aggregateInput = some true
    · have hlen : (items.filter (qualifies lib cfg issues)).length ≤ 1 := by
        rcases hmode with h | h
        · exact absurd hagg h
        · exact h
      have hq : q = aggAll lib w cfg (parseLabels cfg) issues 0 items := by
        have := loopFrom_aggregate lib w cfg (parseLabels cfg) issues hagg items 0 hnp
        rw [loop, this] at hfirst
        exact (Option.some.inj hfirst).symm
      have hqx : qualifies lib cfg issues x = true := by simp [qualifies, hp]
      obtain ⟨pre, y, post, py, hsplit, hpre, hy⟩ :=
        exists_first_qualifying lib cfg issues items ⟨x, hx, hqx⟩
      have hqy : qualifies lib cfg issues y = true := by simp [qualifies, hy]
      have hfpre : pre.filter (qualifies lib cfg issues) = [] := by
        rw [List.filter_eq_nil_iff]
        intro a ha
        simp [(reached_none_iff lib cfg issues a).1 (hpre a ha)]
      have hpost : ∀ z ∈ post, reached lib cfg issues z = none := by
        intro z hz
        rw [reached_none_iff]
        by_contra hne
        have hzq : qualifies lib cfg issues z = true := by simpa using hne
        have hmem : z ∈ post.filter (qualifies lib cfg issues) := List.mem_filter.2 ⟨hz, hzq⟩
        have hpos : 0 < (post.filter (qualifies lib cfg issues)).length :=
          List.length_pos_of_mem hmem
        have hcount : (items.filter (qualifies lib cfg issues)).length =
            (post.filter (qualifies lib cfg issues)).length + 1 := by
          rw [hsplit, List.filter_append, hfpre, List.nil_append, List.filter_cons, hqy]
          simp
        omega
      have hxy : x = y := by
        rw [hsplit] at hx
        rcases List.mem_append.1 hx with h | h
        · rw [hpre x h] at hp
          exact absurd hp (by simp)
        · rcases List.mem_cons.1 h with h | h
          · exact h
          · rw [hpost x h] at hp
            exact absurd hp (by simp)
      subst hxy
      rw [hy] at hp
      have hpy : py = p := Option.some.inj hp
      subst hpy
      refine ⟨newRequest (parseLabels cfg) py.1 py.2, ?_, rfl⟩
      rw [hq, hsplit, aggAll_split lib w cfg (parseLabels cfg) issues x post py hy pre 0 hpre,
        foldAll_none lib w cfg issues post _ _ hpost]
      exact List.mem_singleton_self _
    · have hq := loopFrom_create lib w cfg (parseLabels cfg) issues hagg items 0 [] hnp
      rw [loop, hq] at hfirst
      have hq' := Option.some.inj hfirst
      refine ⟨newRequest (parseLabels cfg) p.1 p.2, ?_, rfl⟩
      rw [← hq', List.nil_append]
      exact List.mem_map.2 ⟨p, List.mem_filterMap.2 ⟨x, hx, hp⟩, rfl⟩
  apply loopFrom_all_next
  intro x hx
  rw [itemBody_next]
  cases hb : itemBody lib cfg issues x with
  | next =>
    rcases (itemBody_next lib cfg issues x).1 hb with h | h
    · left
      obtain ⟨a, ha, hta⟩ := (findIssue_iff _ _).1 h
      obtain ⟨y, hy, hty⟩ := hold a ha
      exact (findIssue_iff _ _).2 ⟨y, hy, hty.trans hta⟩
    · exact Or.inr h
  | panic => exact absurd hb (hnp x hx)
  | ok p =>
    left
    have hp := (reached_eq_some lib cfg issues x p).2 hb
    obtain ⟨r, hr, hrt⟩ := hkey x hx p hp
    obtain ⟨y, hy, hty⟩ := hnew r hr
    exact (findIssue_iff _ _).2
      ⟨y, hy, hty.trans (hrt.trans (reached_title lib cfg issues x p hp))⟩

/-- C1, amended, at a concrete input: the feed of `itemA` and `itemB` without aggregation. -/
theorem second_run_queues_nothing_witness :
    loop goLib goWorld plainCfg
      [{ Title := lit "RSS alpha", Number := 1 }, { Title := lit "RSS beta", Number := 2 }]
      [itemA, itemB] = some [] :=
  second_run_queues_nothing goLib goWorld goWorld plainCfg []
    [{ Title := lit "RSS alpha", Number := 1 }, { Title := lit "RSS beta", Number := 2 }]
    [itemA, itemB]
    [requestA, { Title := lit "RSS beta",
                 Body := lit "\n\nworld\n\n\n\n<https://example.org/b>\n\n",
                 Labels := some [[]] }]
    (Or.inl (by decide)) (by decide) (by decide) (by decide)

/-- C2. In aggregate mode, when the run meets no panic and at least one entry qualifies,
exactly one request is queued and its body is `b1 ++ "\n\n" ++ b2 ++ ... ++ "\n\n" ++ bn`,
the rendered bodies of the qualifying entries in feed order. -/
theorem aggregate_body (lib : Lib) (w : World) (cfg : Inputs) (issues : List Issue)
    (items : List Item) (hagg : lib.ParseBool cfg.aggregateInput = some true)
    (hnp : NoPanic lib cfg issues items)
    (hq : items.filter (qualifies lib cfg issues) ≠ []) :
    ∃ r bs, loop lib w cfg issues items = some [r] ∧
      List.Forall₂ (fun x b => prepare lib cfg x = Flow.ok b)
        (items.filter (qualifies lib cfg issues)) bs ∧
      r.Body = Join bs (lit "\n\n") := by
  obtain ⟨r, hr, hbody⟩ := aggAll_body lib w cfg (parseLabels cfg) issues items 0 hq
  refine ⟨r, bodies lib cfg issues items, ?_, forall₂_bodies lib cfg issues items, hbody⟩
  rw [loop, loopFrom_aggregate lib w cfg (parseLabels cfg) issues hagg items 0 hnp, hr]

/-- C2 at a concrete input: the aggregate of `itemA` and `itemB`. -/
theorem aggregate_body_witness :
    ∃ r bs, loop goLib goWorld aggregateCfg [] [itemA, itemB] = some [r] ∧
      List.Forall₂ (fun x b => prepare goLib aggregateCfg x = Flow.ok b)
        ([itemA, itemB].filter (qualifies goLib aggregateCfg [])) bs ∧
      r.Body = Join bs (lit "\n\n") :=
  aggregate_body goLib goWorld aggregateCfg [] [itemA, itemB] (by decide) (by decide)
    (by decide)

/-- C3. In aggregate mode, when the run meets no panic, the queue has length 1 when some
entry qualifies and length 0 when none does. -/
theorem aggregate_count (lib : Lib) (w : World) (cfg : Inputs) (issues : List Issue)
    (items : List Item) (hagg : lib.ParseBool cfg.aggregateInput = some true)
    (hnp : NoPanic lib cfg issues items) :
    ∃ q, loop lib w cfg issues items = some q ∧
      q.length = if items.any (qualifies lib cfg issues) = true then 1 else 0 :=
  ⟨aggAll lib w cfg (parseLabels cfg) issues 0 items,
    by rw [loop, loopFrom_aggregate lib w cfg (parseLabels cfg) issues hagg items 0 hnp],
    aggAll_length lib w cfg (parseLabels cfg) issues items 0⟩

/-- C3 at a concrete input: the aggregate of `itemA` and `itemB` is one request. -/
theorem aggregate_count_witness :
    ∃ q, loop goLib goWorld aggregateCfg [] [itemA, itemB] = some q ∧
      q.length = if [itemA, itemB].any (qualifies goLib aggregateCfg []) = true then 1 else 0 :=
  aggregate_count goLib goWorld aggregateCfg [] [itemA, itemB] (by decide) (by decide)

/-- C4. In aggregate mode, when the run meets no panic: if exactly one entry `x` qualifies, the
sole request is titled with the title head, a blank and the title of `x`; if `x` is the last
qualifying entry and an entry before it qualifies too, the sole request is titled with the
title head, a blank and the time stamp read while the loop handles `x`. -/
theorem aggregate_title (lib : Lib) (w : World) (cfg : Inputs) (issues : List Issue)
    (items : List Item) (hagg : lib.ParseBool cfg.aggregateInput = some true)
    (hnp : NoPanic lib cfg issues items) :
    (∀ x, items.filter (qualifies lib cfg issues) = [x] →
      ∃ r, loop lib w cfg issues items = some [r] ∧
        r.Title = cfg.prefixInput ++ lit " " ++ x.Title) ∧
    (∀ pre x post, items = pre ++ x :: post →
      (∃ y ∈ pre, qualifies lib cfg issues y = true) →
      qualifies lib cfg issues x = true →
      (∀ z ∈ post, qualifies lib cfg issues z = false) →
      ∃ r, loop lib w cfg issues items = some [r] ∧
        r.Title = cfg.prefixInput ++ lit " " ++ w.stamp pre.length) := by
  have hloop := loopFrom_aggregate lib w cfg (parseLabels cfg) issues hagg items 0 hnp
  constructor
  · intro x hx
    obtain ⟨pre, post, hsplit, hpre, hqx, hpost⟩ := List.filter_eq_cons_iff.1 hx
    have hpre' : ∀ y ∈ pre, reached lib cfg issues y = none := by
      intro y hy
      rw [reached_none_iff]
      simpa using hpre y hy
    have hpost' : ∀ z ∈ post, reached lib cfg issues z = none := by
      intro z hz
      rw [reached_none_iff]
      simpa using (List.filter_eq_nil_iff.1 hpost) z hz
    cases hp : reached lib cfg issues x with
    | none =>
      rw [(reached_none_iff lib cfg issues x).1 hp] at hqx
      exact absurd hqx (by simp)
    | some p =>
      refine ⟨newRequest (parseLabels cfg) p.1 p.2, ?_, ?_⟩
      · rw [loop, hloop, hsplit,
          aggAll_split lib w cfg (parseLabels cfg) issues x post p hp pre 0 hpre',
          foldAll_none lib w cfg issues post _ _ hpost']
      · show p.1 = _
        rw [reached_title lib cfg issues x p hp]
        rfl
  · intro pre x post hsplit hex hqx hpost
    obtain ⟨pre₁, y, pre₂, py, hpre, hpre₁, hy⟩ :=
      exists_first_qualifying lib cfg issues pre hex
    have hpost' : ∀ z ∈ post, reached lib cfg issues z = none := by
      intro z hz
      rw [reached_none_iff]
      exact hpost z hz
    cases hp : reached lib cfg issues x with
    | none =>
      rw [(reached_none_iff lib cfg issues x).1 hp] at hqx
      exact absurd hqx (by simp)
    | some p =>
      have hitems : items = pre₁ ++ y :: (pre₂ ++ x :: post) := by
        rw [hsplit, hpre]
        simp
      have hlen : 0 + pre₁.length + 1 + pre₂.length = pre.length := by
        rw [hpre]
        simp
        omega
      refine ⟨foldInto w cfg pre.length p.2
        (foldAll lib w cfg issues (0 + pre₁.length + 1) pre₂
          (newRequest (parseLabels cfg) py.1 py.2)), ?_, rfl⟩
      rw [loop, hloop, hitems,
        aggAll_split lib w cfg (parseLabels cfg) issues y _ py hy pre₁ 0 hpre₁,
        foldAll_append, hlen, foldAll, hp]
      simp only []
      rw [foldAll_none lib w cfg issues post _ _ hpost']

/-- C4 at concrete inputs: `itemA` alone keeps its own title, `itemA` and `itemB` together
get the time stamp read at the second item. -/
theorem aggregate_title_witness :
    (∃ r, loop goLib goWorld aggregateCfg [] [itemA] = some [r] ∧
      r.Title = lit "RSS" ++ lit " " ++ lit "alpha") ∧
    (∃ r, loop goLib goWorld aggregateCfg [] [itemA, itemB] = some [r] ∧
      r.Title = lit "RSS" ++ lit " " ++ lit "04 Nov 26 10:01 UTC") :=
  ⟨(aggregate_title goLib goWorld aggregateCfg [] [itemA] (by decide) (by decide)).1 itemA
      (by decide),
    (aggregate_title goLib goWorld aggregateCfg [] [itemA, itemB] (by decide) (by decide)).2
      [itemA] itemB [] rfl (by decide) (by decide) (by decide)⟩

theorem prepare_ok (lib : Lib) (cfg : Inputs) (x : Item) (b : GoString) :
    prepare lib cfg x = Flow.ok b ↔
      filterChain lib cfg x (itemContent x) = false ∧
        ∃ md c, lib.ConvertString (itemContent x) = some md ∧
          truncate lib cfg md = Flow.ok c ∧ b = renderBody c x := by
  unfold prepare
  by_cases hf : filterChain lib cfg x (itemContent x) = true
  · simp [hf]
  · cases hc : lib.ConvertString (itemContent x) with
    | none => simp [hf, hc]
    | some md => cases ht : truncate lib cfg md <;> simp [hf, hc, ht, eq_comm]

theorem qualifies_iff (lib : Lib) (cfg : Inputs) (issues : List Issue) (x : Item) :
    qualifies lib cfg issues x = true ↔
      findIssue issues (composeTitle cfg x) = false ∧
        filterChain lib cfg x (itemContent x) = false ∧
        ∃ md c, lib.ConvertString (itemContent x) = some md ∧
          truncate lib cfg md = Flow.ok c := by
  unfold qualifies
  rw [Option.isSome_iff_exists]
  constructor
  · rintro ⟨p, hp⟩
    obtain ⟨hf, b, hb, _⟩ := (itemBody_ok lib cfg issues x p).1
      ((reached_eq_some lib cfg issues x p).1 hp)
    obtain ⟨hfc, md, c, hmd, hc, _⟩ := (prepare_ok lib cfg x b).1 hb
    exact ⟨hf, hfc, md, c, hmd, hc⟩
  · rintro ⟨hf, hfc, md, c, hmd, hc⟩
    exact ⟨(composeTitle cfg x, renderBody c x), (reached_eq_some lib cfg issues x _).2
      ((itemBody_ok lib cfg issues x _).2
        ⟨hf, renderBody c x, (prepare_ok lib cfg x _).2 ⟨hfc, md, c, hmd, hc, rfl⟩, rfl⟩)⟩

theorem forall₂_created (lib : Lib) (cfg : Inputs) (labels : List GoString)
    (issues : List Issue) :
    ∀ (items : List Item),
      List.Forall₂ (fun x r => r.Title = composeTitle cfg x ∧ prepare lib cfg x = Flow.ok r.Body)
        (items.filter (qualifies lib cfg issues))
        ((items.filterMap (reached lib cfg issues)).map (fun p => newRequest labels p.1 p.2))
  | [] => by simp
  | x :: rest => by
    cases hx : reached lib cfg issues x with
    | none =>
      rw [filter_qualifies_cons_none lib cfg issues x rest hx, List.filterMap_cons, hx]
      exact forall₂_created lib cfg labels issues rest
    | some p =>
      rw [filter_qualifies_cons_some lib cfg issues x rest p hx, List.filterMap_cons, hx]
      refine List.Forall₂.cons ⟨reached_title lib cfg issues x p hx, ?_⟩
        (forall₂_created lib cfg labels issues rest)
      obtain ⟨_, b, hb, hp⟩ := (itemBody_ok lib cfg issues x p).1
        ((reached_eq_some lib cfg issues x p).1 hx)
      rw [hp]
      exact hb

/-- C5. When the aggregate option is false or does not parse and the run meets no panic, the
queue holds one request per qualifying entry, in feed order; the title of each is the title
head, a blank and the title of its entry, and its body is the template rendered on the link
of the entry and on its normalized content, which is taken from the content of the entry, or
from its description when the content is empty. -/
theorem one_request_per_entry (lib : Lib) (w : World) (cfg : Inputs) (issues : List Issue)
    (items : List Item) (hmode : lib.ParseBool cfg.aggregateInput ≠ some true)
    (hnp : NoPanic lib cfg issues items) :
    ∃ q, loop lib w cfg issues items = some q ∧
      List.Forall₂ (fun x r =>
          r.Title = cfg.prefixInput ++ lit " " ++ x.Title ∧
          ∃ md c,
            lib.ConvertString (if x.Content = [] then x.Description else x.Content) = some md ∧
            truncate lib cfg md = Flow.ok c ∧
            r.Body = Execute issue [(lit "Link", x.Link), (lit "Content", c)])
        (items.filter (qualifies lib cfg issues)) q := by
  refine ⟨_, by rw [loop, loopFrom_create lib w cfg (parseLabels cfg) issues hmode items 0 []
    hnp, List.nil_append], ?_⟩
  refine List.Forall₂.imp ?_ (forall₂_created lib cfg (parseLabels cfg) issues items)
  rintro x r ⟨ht, hb⟩
  obtain ⟨_, md, c, hmd, hc, hr⟩ := (prepare_ok lib cfg x r.Body).1 hb
  exact ⟨ht, md, c, hmd, hc, hr⟩

/-- C5 at a concrete input: the feed of `itemA` and `itemB` without aggregation. -/
theorem one_request_per_entry_witness :
    ∃ q, loop goLib goWorld plainCfg [] [itemA, itemB] = some q ∧
      List.Forall₂ (fun x r =>
          r.Title = plainCfg.prefixInput ++ lit " " ++ x.Title ∧
          ∃ md c,
            goLib.ConvertString (if x.Content = [] then x.Description else x.Content) =
              some md ∧
            truncate goLib plainCfg md = Flow.ok c ∧
            r.Body = Execute issue [(lit "Link", x.Link), (lit "Content", c)])
        ([itemA, itemB].filter (qualifies goLib plainCfg [])) q :=
  one_request_per_entry goLib goWorld plainCfg [] [itemA, itemB] (by decide) (by decide)

/-- C6, counterexample. Without aggregation a feed that holds the same entry twice queues
two requests of the same title. -/
theorem equal_entries_queue_equal_titles :
    loop goLib goWorld plainCfg [] [itemA, itemA] = some [requestA, requestA] ∧
      ¬ ([requestA, requestA].map IssueRequest.Title).Nodup := by
  decide

/-- C6, amended. Without aggregation, when the run meets no panic and the qualifying entries
of the feed have pairwise distinct titles, the queued requests have pairwise distinct
titles. -/
theorem queued_titles_distinct (lib : Lib) (w : World) (cfg : Inputs) (issues : List Issue)
    (items : List Item) (hmode : lib.ParseBool cfg.aggregateInput ≠ some true)
    (hnp : NoPanic lib cfg issues items)
    (hd : ((items.filter (qualifies lib cfg issues)).map Item.Title).Nodup) :
    ∃ q, loop lib w cfg issues items = some q ∧ (q.map IssueRequest.Title).Nodup := by
  refine ⟨_, by rw [loop, loopFrom_create lib w cfg (parseLabels cfg) issues hmode items 0 []
    hnp, List.nil_append], ?_⟩
  have hrel := forall₂_created lib cfg (parseLabels cfg) issues items
  have htitles : ∀ (l : List Item) (q : List IssueRequest),
      List.Forall₂ (fun x r => r.Title = composeTitle cfg x ∧
        prepare lib cfg x = Flow.ok r.Body) l q →
      q.map IssueRequest.Title = (l.map Item.Title).map (fun t => cfg.prefixInput ++ lit " " ++ t) := by
    intro l q h
    induction h with
    | nil => rfl
    | cons hab _ ih =>
      simp only [List.map_cons, ih, hab.1]
      rfl
  rw [htitles _ _ hrel]
  refine List.Nodup.map ?_ hd
  intro a b hab
  exact List.append_cancel_left hab

/-- C6, amended, at a concrete input: the feed of `itemA` and `itemB`. -/
theorem queued_titles_distinct_witness :
    ∃ q, loop goLib goWorld plainCfg [] [itemA, itemB] = some q ∧
      (q.map IssueRequest.Title).Nodup :=
  queued_titles_distinct goLib goWorld plainCfg [] [itemA, itemB] (by decide) (by decide)
    (by decide)

/-- C7. At every item and every state of the queue, the loop steps as follows: if an issue of
the snapshot has exactly the title made of the title head, a blank and the title of the item,
the item is passed over and the queue stays as it is; if no issue has that title, the item
goes on to the filters and the rest of the body. -/
theorem dedup_by_title (lib : Lib) (w : World) (cfg : Inputs) (labels : List GoString)
    (issues : List Issue) (i : Nat) (item : Item) (rest : List Item)
    (q : List IssueRequest) :
    loopFrom lib w cfg labels issues i (item :: rest) q =
      if ∃ x ∈ issues, x.Title = cfg.prefixInput ++ lit " " ++ item.Title then
        loopFrom lib w cfg labels issues (i + 1) rest q
      else
        match prepare lib cfg item with
        | Flow.next => loopFrom lib w cfg labels issues (i + 1) rest q
        | Flow.panic => none
        | Flow.ok body =>
          loopFrom lib w cfg labels issues (i + 1) rest
            (enqueue lib w cfg labels i (cfg.prefixInput ++ lit " " ++ item.Title) body q) := by
  have hiff := findIssue_iff issues (composeTitle cfg item)
  have htitle : composeTitle cfg item = cfg.prefixInput ++ lit " " ++ item.Title := rfl
  rw [htitle] at hiff
  by_cases hf : findIssue issues (composeTitle cfg item) = true
  · rw [if_pos (hiff.1 (htitle ▸ hf)), loopFrom, (itemBody_next lib cfg issues item).2 (Or.inl hf)]
  · have hne : ¬ ∃ x ∈ issues, x.Title = cfg.prefixInput ++ lit " " ++ item.Title :=
      fun h => hf (htitle ▸ hiff.2 h)
    rw [if_neg hne, loopFrom]
    unfold itemBody
    simp only [hf]
    cases prepare lib cfg item <;> rfl

/-- C8. When the library answers `m1`, `m2` and `m3` without error for the configured
patterns, the filter chain skips the entry exactly when the title exclusion is set and
matches the title, or the title inclusion is set and does not match the title, or the content
exclusion is set and matches the content before conversion; a skipped entry leaves the loop
body at once. -/
theorem filter_chain_skips (lib : Lib) (cfg : Inputs) (item : Item) (m1 m2 m3 : Bool)
    (h1 : cfg.titleFilterInput ≠ [] →
      lib.MatchString cfg.titleFilterInput item.Title = some m1)
    (h2 : cfg.titleInclusionFilterInput ≠ [] →
      lib.MatchString cfg.titleInclusionFilterInput item.Title = some m2)
    (h3 : cfg.contentFilterInput ≠ [] →
      lib.MatchString cfg.contentFilterInput
        (if item.Content = [] then item.Description else item.Content) = some m3) :
    (filterChain lib cfg item (itemContent item) = true ↔
      (cfg.titleFilterInput ≠ [] ∧ m1 = true) ∨
      (cfg.titleInclusionFilterInput ≠ [] ∧ m2 = false) ∨
      (cfg.contentFilterInput ≠ [] ∧ m3 = true)) ∧
    (filterChain lib cfg item (itemContent item) = true → prepare lib cfg item = Flow.next) := by
  constructor
  · unfold filterChain
    by_cases c1 : cfg.titleFilterInput = []
    · by_cases c2 : cfg.titleInclusionFilterInput = []
      · by_cases c3 : cfg.contentFilterInput = []
        · simp [c1, c2, c3]
        · have e3 := h3 c3
          simp only [itemContent]
          simp [c1, c2, c3, e3]
      · by_cases c3 : cfg.contentFilterInput = []
        · simp [c1, c2, c3, h2 c2]
        · have e3 := h3 c3
          simp only [itemContent]
          simp [c1, c2, c3, h2 c2, e3]
    · by_cases c2 : cfg.titleInclusionFilterInput = []
      · by_cases c3 : cfg.contentFilterInput = []
        · simp [c1, c2, c3, h1 c1]
        · have e3 := h3 c3
          simp only [itemContent]
          simp [c1, c2, c3, h1 c1, e3]
      · by_cases c3 : cfg.contentFilterInput = []
        · simp [c1, c2, c3, h1 c1, h2 c2]
        · have e3 := h3 c3
          simp only [itemContent]
          simp [c1, c2, c3, h1 c1, h2 c2, e3]
  · intro h
    unfold prepare
    simp [h]

/-- C8 at a concrete input: `itemA` passes the three filters of `filterCfg`. -/
theorem filter_chain_skips_witness :
    (filterChain goLib filterCfg itemA (itemContent itemA) = true ↔
      (filterCfg.titleFilterInput ≠ [] ∧ false = true) ∨
      (filterCfg.titleInclusionFilterInput ≠ [] ∧ true = false) ∨
      (filterCfg.contentFilterInput ≠ [] ∧ false = true)) ∧
    (filterChain goLib filterCfg itemA (itemContent itemA) = true →
      prepare goLib filterCfg itemA = Flow.next) :=
  filter_chain_skips goLib filterCfg itemA false true false (fun _ => by decide)
    (fun _ => by decide) (fun _ => by decide)

theorem truncate_unset (lib : Lib) (cfg : Inputs) (t : GoString)
    (h : cfg.characterLimit = []) : truncate lib cfg t = Flow.ok t := by
  simp [truncate, h]

theorem truncate_cut (lib : Lib) (cfg : Inputs) (t : GoString) (n : Int)
    (hset : cfg.characterLimit ≠ []) (hn : lib.Atoi cfg.characterLimit = some n)
    (h0 : 0 ≤ n) (hlt : n < (t.length : Int)) :
    truncate lib cfg t = Flow.ok (t.take n.toNat ++ ellipsis ++ notice) := by
  have hs : slicePrefix t n = some (t.take n.toNat) := by
    unfold slicePrefix
    rw [if_pos ⟨h0, le_of_lt hlt⟩]
  unfold truncate
  rw [if_pos hset]
  simp only [hn]
  rw [if_pos (by exact hlt), hs]

theorem truncate_keep (lib : Lib) (cfg : Inputs) (t : GoString) (n : Int)
    (hset : cfg.characterLimit ≠ []) (hn : lib.Atoi cfg.characterLimit = some n)
    (hle : (t.length : Int) ≤ n) : truncate lib cfg t = Flow.ok t := by
  unfold truncate
  rw [if_pos hset]
  simp only [hn]
  rw [if_neg (by omega)]

/-- C9. With no character limit set the converted text is left as it is. With a limit that
parses to `n`: when `0 < n` and `n` is less than the length of the text, the content is the
first `n` bytes of the text, then the ellipsis, then the notice; when the length is at most
`n`, the text is left as it is. -/
theorem truncation_exact (lib : Lib) (cfg : Inputs) (t : GoString) :
    (cfg.characterLimit = [] → truncate lib cfg t = Flow.ok t) ∧
    (∀ n : Int, cfg.characterLimit ≠ [] → lib.Atoi cfg.characterLimit = some n →
      (0 < n → n < (t.length : Int) →
        truncate lib cfg t = Flow.ok (t.take n.toNat ++ lit "…" ++
          lit "\n\n---\n## Would you like to know more?\nRead the full article on the following website:") ∧
        ((t.take n.toNat).length : Int) = n) ∧
      ((t.length : Int) ≤ n → truncate lib cfg t = Flow.ok t)) := by
  refine ⟨truncate_unset lib cfg t, fun n hset hn => ⟨fun h0 hlt => ⟨?_, ?_⟩, ?_⟩⟩
  · exact truncate_cut lib cfg t n hset hn (le_of_lt h0) hlt
  · rw [List.length_take]
    omega
  · exact truncate_keep lib cfg t n hset hn

/-- C9 at a concrete input: the limit `3` on the text `hello`. -/
theorem truncation_exact_witness :
    truncate goLib limitCfg (lit "hello") = Flow.ok (lit "hel" ++ lit "…" ++
        lit "\n\n---\n## Would you like to know more?\nRead the full article on the following website:") ∧
      (((lit "hello").take (3 : Int).toNat).length : Int) = 3 :=
  ((truncation_exact goLib limitCfg (lit "hello")).2 3 (by decide) (by decide)).1
    (by decide) (by decide)

/-- C10. The code at the character limit `0` and the text `hello`: the content is not left
as it is, it becomes the ellipsis and the notice, and the request queued for `itemA` carries
them in its body. -/
theorem limit_zero_replaces_text :
    truncate goLib zeroLimitCfg (lit "hello") = Flow.ok (lit "…" ++
        lit "\n\n---\n## Would you like to know more?\nRead the full article on the following website:") ∧
      truncate goLib zeroLimitCfg (lit "hello") ≠ Flow.ok (lit "hello") ∧
      loop goLib goWorld zeroLimitCfg [] [itemA] = some
        [{ Title := lit "RSS alpha"
           Body := lit "\n\n…\n\n---\n## Would you like to know more?\nRead the full article on the following website:\n\n\n\n<https://example.org/a>\n\n"
           Labels := some [[]] }] := by
  decide

theorem Split_ne_nil (s : GoString) (sep : Nat) : Split s sep ≠ [] := by
  cases s with
  | nil => simp [Split]
  | cons c r =>
    unfold Split
    split
    · simp
    · split <;> simp

theorem enqueue_labels (lib : Lib) (w : World) (cfg : Inputs) (labels : List GoString)
    (i : Nat) (t b : GoString) (q : List IssueRequest) (hl : labels ≠ [])
    (hq : ∀ r ∈ q, r.Labels = some labels) :
    ∀ r ∈ enqueue lib w cfg labels i t b q, r.Labels = some labels := by
  have hnew : (newRequest labels t b).Labels = some labels := by
    have : labels.length ≠ 0 := fun h => hl (List.length_eq_zero.1 h)
    simp [newRequest, this]
  have hcreate : ∀ r ∈ q ++ [newRequest labels t b], r.Labels = some labels := by
    intro r hr
    rcases List.mem_append.1 hr with h | h
    · exact hq r h
    · rw [List.mem_singleton.1 h]
      exact hnew
  by_cases hagg : lib.ParseBool cfg.aggregateInput = some true
  · cases q with
    | nil =>
      rw [enqueue_nil]
      exact hcreate
    | cons r₀ rest =>
      rw [enqueue_fold lib w cfg labels i t b r₀ rest hagg]
      intro r hr
      rcases List.mem_cons.1 hr with h | h
      · rw [h]
        exact hq r₀ (List.mem_cons_self _ _)
      · exact hq r (List.mem_cons_of_mem _ h)
  · rw [enqueue_create lib w cfg labels i t b q hagg]
    exact hcreate

theorem loopFrom_labels (lib : Lib) (w : World) (cfg : Inputs) (labels : List GoString)
    (issues : List Issue) (hl : labels ≠ []) :
    ∀ (items : List Item) (i : Nat) (q q' : List IssueRequest),
      (∀ r ∈ q, r.Labels = some labels) →
      loopFrom lib w cfg labels issues i items q = some q' →
      ∀ r ∈ q', r.Labels = some labels
  | [], _, q, q', hq, h => by
    rw [loopFrom] at h
    rw [← Option.some.inj h]
    exact hq
  | x :: rest, i, q, q', hq, h => by
    rw [loopFrom] at h
    cases hb : itemBody lib cfg issues x with
    | next =>
      rw [hb] at h
      exact loopFrom_labels lib w cfg labels issues hl rest (i + 1) q q' hq h
    | panic =>
      rw [hb] at h
      simp at h
    | ok p =>
      obtain ⟨t, b⟩ := p
      rw [hb] at h
      exact loopFrom_labels lib w cfg labels issues hl rest (i + 1) _ q'
        (enqueue_labels lib w cfg labels i t b q hl hq) h

theorem queued_labels (lib : Lib) (w : World) (cfg : Inputs) (issues : List Issue)
    (items : List Item) (q : List IssueRequest)
    (h : loop lib w cfg issues items = some q) :
    ∀ r ∈ q, r.Labels = some (Split cfg.labelsInput 44) :=
  loopFrom_labels lib w cfg (parseLabels cfg) issues (Split_ne_nil _ _) items 0 [] q
    (fun _ hr => absurd hr (List.not_mem_nil _)) h

/-- C11. The code at an empty labels option: the split of the empty string is the list of
one empty label, so the request queued for `itemA` has its labels set to that list and not
left unset. -/
theorem empty_labels_option_sets_labels :
    parseLabels plainCfg = [[]] ∧
      loop goLib goWorld plainCfg [] [itemA] = some [requestA] ∧
      requestA.Labels = some [[]] ∧ requestA.Labels ≠ none := by
  decide

theorem limitTime_parsed (lib : Lib) (w : World) (cfg : Inputs) (d : Int)
    (hd : lib.ParseDuration cfg.lastTimeInput = some d) :
    limitTime lib w cfg = w.now - |d| := by
  unfold limitTime
  rw [hd]
  simp only []
  by_cases h : d > 0
  · rw [if_pos h, abs_of_pos h]
    ring
  · rw [if_neg h, abs_of_nonpos (not_lt.1 h)]
    ring

theorem mem_removeOld (limit : Int) (feed : List Item) (x : Item) :
    x ∈ removeOld limit feed ↔
      x ∈ feed ∧ (x.PublishedParsed = none ∨ ∃ t, x.PublishedParsed = some t ∧ limit < t) := by
  unfold removeOld
  rw [List.mem_filter]
  cases hp : x.PublishedParsed <;> simp

/-- C12. When the duration parses to `d`, of either sign, the time filter keeps exactly the
entries of the feed without publish time or published strictly after `now - |d|`, in feed
order; an entry without publish time is kept whatever the duration option holds. -/
theorem time_cutoff (lib : Lib) (w : World) (cfg : Inputs) (feed : List Item) :
    (∀ d, lib.ParseDuration cfg.lastTimeInput = some d → ∀ x,
      (x ∈ removeOld (limitTime lib w cfg) feed ↔
        x ∈ feed ∧
          (x.PublishedParsed = none ∨ ∃ t, x.PublishedParsed = some t ∧ w.now - |d| < t))) ∧
    (∀ x ∈ feed, x.PublishedParsed = none → x ∈ removeOld (limitTime lib w cfg) feed) ∧
    (removeOld (limitTime lib w cfg) feed).Sublist feed := by
  refine ⟨?_, ?_, ?_⟩
  · intro d hd x
    rw [mem_removeOld, limitTime_parsed lib w cfg d hd]
  · intro x hx hnone
    exact (mem_removeOld _ feed x).2 ⟨hx, Or.inl hnone⟩
  · exact List.filter_sublist feed

/-- C12 at a concrete input: with the duration `24h` the entry published 48 hours ago is
dropped and the entry without publish time is kept. -/
theorem time_cutoff_witness :
    (itemOld ∈ removeOld (limitTime goLib goWorld dayCfg) [itemOld, itemA] ↔
      itemOld ∈ [itemOld, itemA] ∧
        (itemOld.PublishedParsed = none ∨
          ∃ t, itemOld.PublishedParsed = some t ∧ goWorld.now - |(86400000000000 : Int)| < t)) ∧
    removeOld (limitTime goLib goWorld dayCfg) [itemOld, itemA] = [itemA] :=
  ⟨(time_cutoff goLib goWorld dayCfg [itemOld, itemA]).1 86400000000000 (by decide) itemOld,
    by decide⟩

theorem submitFrom_dry (lib : Lib) (w : World) (cfg : Inputs)
    (hdry : lib.ParseBool cfg.dryRunInput = some true) :
    ∀ (q : List IssueRequest) (s : Submitted), submitFrom lib w cfg q s = s
  | [], _ => rfl
  | r :: rest, s => by
    rw [submitFrom, hdry]
    exact submitFrom_dry lib w cfg hdry rest s

/-- C13. When the dry-run option parses to true, the submission loop passes no request of the
queue, of whatever length, to the tracker and creates no issue; a run that queues `q` ends
with no call to the tracker and with the empty string as output `issues`. -/
theorem dry_run_submits_nothing (lib : Lib) (w : World) (cfg : Inputs)
    (q : List IssueRequest) (hdry : lib.ParseBool cfg.dryRunInput = some true) :
    submitFrom lib w cfg q { calls := [], createdIssues := [] } =
        { calls := [], createdIssues := [] } ∧
      ∀ feed issues, loop lib w cfg issues (removeOld (limitTime lib w cfg) feed) = some q →
        main lib w cfg feed issues = some { calls := [], issues := [] } := by
  refine ⟨submitFrom_dry lib w cfg hdry q _, ?_⟩
  intro feed issues hloop
  unfold main
  rw [hloop]
  simp only [submitFrom_dry lib w cfg hdry q _]
  rfl

/-- C13 at a concrete input: the dry run over the feed of `itemA` and `itemB`. -/
theorem dry_run_submits_nothing_witness :
    main goLib goWorld dryCfg [itemA, itemB] [] = some { calls := [], issues := [] } :=
  (dry_run_submits_nothing goLib goWorld dryCfg [requestA, requestB] (by decide)).2
    [itemA, itemB] [] (by decide)

theorem createdNumbers_nil (w : World) (calls : List IssueRequest) :
    createdNumbers w calls [] = [] := rfl

theorem createdNumbers_cons (w : World) (calls : List IssueRequest) (r : IssueRequest)
    (rest : List IssueRequest) :
    createdNumbers w calls (r :: rest) =
      (w.Create calls r).toList ++ createdNumbers w (calls ++ [r]) rest := by
  unfold createdNumbers
  rw [List.length_cons, List.range_succ_eq_map, List.filterMap_cons, List.filterMap_map]
  have hfun : ((fun k => (r :: rest)[k]?.bind (w.Create (calls ++ (r :: rest).take k))) ∘
      Nat.succ) = fun k => rest[k]?.bind (w.Create (calls ++ [r] ++ rest.take k)) := by
    funext k
    simp
  rw [hfun]
  cases hc : w.Create calls r <;> simp [hc]

theorem submitFrom_live (lib : Lib) (w : World) (cfg : Inputs)
    (hlive : lib.ParseBool cfg.dryRunInput ≠ some true) :
    ∀ (q : List IssueRequest) (s : Submitted),
      submitFrom lib w cfg q s =
        { calls := s.calls ++ q
          createdIssues := s.createdIssues ++ createdNumbers w s.calls q }
  | [], s => by simp [submitFrom, createdNumbers_nil]
  | r :: rest, s => by
    have hstep : submitFrom lib w cfg (r :: rest) s =
        match w.Create s.calls r with
        | none => submitFrom lib w cfg rest { s with calls := s.calls ++ [r] }
        | some n =>
          submitFrom lib w cfg rest
            { calls := s.calls ++ [r], createdIssues := s.createdIssues ++ [n] } := by
      rw [submitFrom]
      split
      · rename_i h
        exact absurd h hlive
      · rfl
    rw [hstep, createdNumbers_cons]
    cases hc : w.Create s.calls r with
    | none =>
      simp only []
      rw [submitFrom_live lib w cfg hlive rest _]
      simp
    | some n =>
      simp only []
      rw [submitFrom_live lib w cfg hlive rest _]
      simp

/-- C14. When the dry-run option is false or does not parse, the submission loop passes
every request of the queue to the tracker once, in queue order, whether earlier creations
failed or not, and keeps the numbers of the requests whose creation succeeded, in that
order; a run that queues `q` ends with the output `issues` made of these numbers in decimal,
joined by commas. -/
theorem live_run_submits_all (lib : Lib) (w : World) (cfg : Inputs)
    (q : List IssueRequest) (hlive : lib.ParseBool cfg.dryRunInput ≠ some true) :
    submitFrom lib w cfg q { calls := [], createdIssues := [] } =
        { calls := q
          createdIssues :=
            (List.range q.length).filterMap fun k => q[k]?.bind (w.Create (q.take k)) } ∧
      ∀ feed issues, loop lib w cfg issues (removeOld (limitTime lib w cfg) feed) = some q →
        main lib w cfg feed issues = some
          { calls := q
            issues := Join
              (((List.range q.length).filterMap fun k =>
                q[k]?.bind (w.Create (q.take k))).map Itoa) (lit ",") } := by
  have hsub := submitFrom_live lib w cfg hlive q { calls := [], createdIssues := [] }
  have hnum : createdNumbers w [] q =
      (List.range q.length).filterMap fun k => q[k]?.bind (w.Create (q.take k)) := by
    simp [createdNumbers]
  simp only [List.nil_append, hnum] at hsub
  refine ⟨hsub, ?_⟩
  intro feed issues hloop
  unfold main
  rw [hloop]
  simp only [hsub]

/-- C14 at concrete inputs: with a tracker that fails on its first call both requests are
sent and the output is `2`; with a tracker that never fails the output is `1,2`. -/
theorem live_run_submits_all_witness :
    main goLib flakyWorld plainCfg [itemA, itemB] [] = some
        { calls := [requestA, requestB]
          issues := Join
            (((List.range [requestA, requestB].length).filterMap fun k =>
              [requestA, requestB][k]?.bind
                (flakyWorld.Create ([requestA, requestB].take k))).map Itoa) (lit ",") } ∧
      main goLib flakyWorld plainCfg [itemA, itemB] [] =
        some { calls := [requestA, requestB], issues := lit "2" } ∧
      main goLib goWorld plainCfg [itemA, itemB] [] =
        some { calls := [requestA, requestB], issues := lit "1,2" } :=
  ⟨(live_run_submits_all goLib flakyWorld plainCfg [requestA, requestB] (by decide)).2
      [itemA, itemB] [] (by decide),
    by decide, by decide⟩

theorem prepare_of_filterChain (lib : Lib) (cfg : Inputs) (item : Item)
    (h : filterChain lib cfg item (itemContent item) = true) :
    prepare lib cfg item = Flow.next := by
  unfold prepare
  simp [h]

/-- C15. A malformed pattern, one on which the library returns an error, never stops the
loop: as title exclusion or as content exclusion it leaves the filter chain as it is without
that filter; as configured title inclusion it counts as no match, so the chain skips the
entry, and when it is malformed on every title the run queues nothing. -/
theorem malformed_patterns (lib : Lib) (cfg : Inputs) (item : Item) (content : GoString) :
    (lib.MatchString cfg.titleFilterInput item.Title = none →
      filterChain lib cfg item content =
        filterChain lib { cfg with titleFilterInput := [] } item content) ∧
    (lib.MatchString cfg.contentFilterInput content = none →
      filterChain lib cfg item content =
        filterChain lib { cfg with contentFilterInput := [] } item content) ∧
    (cfg.titleInclusionFilterInput ≠ [] →
      lib.MatchString cfg.titleInclusionFilterInput item.Title = none →
      filterChain lib cfg item content = true) ∧
    (cfg.titleInclusionFilterInput ≠ [] →
      (∀ t, lib.MatchString cfg.titleInclusionFilterInput t = none) →
      ∀ w issues items, loop lib w cfg issues items = some []) := by
  have hinc : ∀ (x : Item) (c : GoString), cfg.titleInclusionFilterInput ≠ [] →
      lib.MatchString cfg.titleInclusionFilterInput x.Title = none →
      filterChain lib cfg x c = true := by
    intro x c hset hm
    unfold filterChain
    simp [hset, hm]
  refine ⟨?_, ?_, hinc item content, ?_⟩
  · intro hm
    unfold filterChain
    simp [hm]
  · intro hm
    unfold filterChain
    simp [hm]
  · intro hset hm w issues items
    apply loopFrom_all_next
    intro x _
    rw [itemBody_next]
    exact Or.inr (prepare_of_filterChain lib cfg x (hinc x _ hset (hm x.Title)))

/-- C15 at concrete inputs: the malformed pattern `(` as title exclusion lets `itemA`
through, as title inclusion it makes the run queue nothing. -/
theorem malformed_patterns_witness :
    filterChain goLib badExcludeCfg itemA (itemContent itemA) =
        filterChain goLib { badExcludeCfg with titleFilterInput := [] } itemA
          (itemContent itemA) ∧
      loop goLib goWorld badExcludeCfg [] [itemA, itemB] = some [requestA, requestB] ∧
      loop goLib goWorld badIncludeCfg [] [itemA, itemB] = some [] :=
  ⟨(malformed_patterns goLib badExcludeCfg itemA (itemContent itemA)).1 (by decide),
    by decide,
    (malformed_patterns goLib badIncludeCfg itemA (itemContent itemA)).2.2.2 (by decide)
      (fun t => by
        have h : (lit "(").all isAlnum = false := by decide
        show goMatchString (lit "(") t = none
        unfold goMatchString
        rw [h]
        rfl)
      goWorld [] [itemA, itemB]⟩

/-- C16. The rendered body is a newline, then the content between two newlines when the
content is not empty, then a newline, then two newlines, the link between angle brackets and
a newline when the link is not empty, then a newline. -/
theorem body_template (markdown : GoString) (item : Item) :
    renderBody markdown item =
      lit "\n" ++ (if markdown ≠ [] then lit "\n" ++ markdown ++ lit "\n" else []) ++ lit "\n" ++
        (if item.Link ≠ [] then lit "\n\n<" ++ item.Link ++ lit ">\n" else []) ++ lit "\n" := by
  have hne : lit "Link" ≠ lit "Content" := by decide
  unfold renderBody Execute issue
  by_cases hc : markdown = [] <;> by_cases hl : item.Link = [] <;>
    simp [Node.exec, Piece.exec, Context.get, hne, hc, hl]

theorem truncate_malformed (lib : Lib) (cfg : Inputs) (markdown : GoString)
    (hset : cfg.characterLimit ≠ []) (hbad : lib.Atoi cfg.characterLimit = none) :
    truncate lib cfg markdown = Flow.next := by
  unfold truncate
  rw [if_pos hset, hbad]

/-- C17. When the character limit is not empty and does not parse as an integer, the
truncation step leaves the loop body with `continue` on every converted text, no entry
panics, and the run queues no request, for every feed and snapshot. -/
theorem malformed_limit_queues_nothing (lib : Lib) (cfg : Inputs)
    (hset : cfg.characterLimit ≠ []) (hbad : lib.Atoi cfg.characterLimit = none) :
    (∀ markdown, truncate lib cfg markdown = Flow.next) ∧
      ∀ w issues items, loop lib w cfg issues items = some [] := by
  refine ⟨fun md => truncate_malformed lib cfg md hset hbad, ?_⟩
  intro w issues items
  apply loopFrom_all_next
  intro x _
  rw [itemBody_next]
  right
  unfold prepare
  simp only []
  split
  · rfl
  · split
    · rfl
    · rw [truncate_malformed lib cfg _ hset hbad]

/-- C17 at a concrete input: the character limit `abc` on the feed of `itemA` and `itemB`. -/
theorem malformed_limit_queues_nothing_witness :
    loop goLib goWorld badLimitCfg [] [itemA, itemB] = some [] :=
  (malformed_limit_queues_nothing goLib badLimitCfg (by decide) (by decide)).2 goWorld []
    [itemA, itemB]

/-- C18. An entry whose title matches the title inclusion and whose content matches the
configured content exclusion is skipped by the filter chain: the loop passes over it and the
queue stays as it is. -/
theorem exclude_wins_over_include (lib : Lib) (w : World) (cfg : Inputs)
    (labels : List GoString) (issues : List Issue) (i : Nat) (item : Item) (rest : List Item)
    (q : List IssueRequest)
    (hinc : lib.MatchString cfg.titleInclusionFilterInput item.Title = some true)
    (hset : cfg.contentFilterInput ≠ [])
    (hexc : lib.MatchString cfg.contentFilterInput
      (if item.Content = [] then item.Description else item.Content) = some true) :
    filterChain lib cfg item (itemContent item) = true ∧
      loopFrom lib w cfg labels issues i (item :: rest) q =
        loopFrom lib w cfg labels issues (i + 1) rest q := by
  have hf : filterChain lib cfg item (itemContent item) = true := by
    unfold filterChain
    simp only [itemContent]
    simp [hinc, hset, hexc]
  refine ⟨hf, ?_⟩
  rw [loopFrom, (itemBody_next lib cfg issues item).2
    (Or.inr (prepare_of_filterChain lib cfg item hf))]

/-- C18 at a concrete input: `itemA` matches the inclusion `al` by its title and the
exclusion `ell` by its content, and is skipped. -/
theorem exclude_wins_over_include_witness :
    filterChain goLib precedenceCfg itemA (itemContent itemA) = true ∧
      loopFrom goLib goWorld precedenceCfg [[]] [] 0 (itemA :: []) [] =
        loopFrom goLib goWorld precedenceCfg [[]] [] (0 + 1) [] [] :=
  exclude_wins_over_include goLib goWorld precedenceCfg [[]] [] 0 itemA [] [] (by decide)
    (by decide) (by decide)

/-- C19. The code at the character limit `-1` and the text `hello`: the length exceeds the
limit, the slice `markdown[:cl]` has a negative bound and panics, and the run over the feed
of `itemA` is aborted. -/
theorem negative_limit_panics :
    goLib.Atoi negativeLimitCfg.characterLimit = some (-1) ∧
      truncate goLib negativeLimitCfg (lit "hello") = Flow.panic ∧
      loop goLib goWorld negativeLimitCfg [] [itemA] = none ∧
      main goLib goWorld negativeLimitCfg [itemA] [] = none := by
  decide

end RssIssues
